import Mathlib

/-!
Verification of the adaptive sampling and event-shaping pipeline of
puckpuck/http-honeylog (src/main.go), as a shallow embedding in Lean 4.

External collaborators (encoding/json, urlshaper, dynsampler, libhoney,
math/rand) are modelled at their interface boundary as oracle parameters;
the repository's own logic (cleanData, determineSampleRate, the readNewData
ingestion loop) is translated from the source.
-/

set_option autoImplicit false

namespace HoneyLog

/-- A dynamically typed JSON value, as produced by Go's `json.Unmarshal` into
`interface` values: string, float64 number (here: integer-valued numbers,
whose `%v` rendering agrees with Go's), bool, nil, slice, or nested map.
(src/main.go:115, `var data map[string]interface`). -/
inductive Value where
  | str (s : String)
  | num (n : Int)
  | bool (b : Bool)
  | null
  | list (elems : List Value)
  | obj (fields : List (String × Value))

/-- A decoded JSON object (Go `map[string]interface`), modelled as an
association list of fields. `json.Unmarshal` produces unique keys. -/
abbrev Record := List (String × Value)

/-- Go map read `data[field]` (src/main.go:198). -/
def lookupField : Record → String → Option Value
  | [], _ => none
  | (k, v) :: rest, key => if k == key then some v else lookupField rest key

/-- Go map assignment `data[k] = v`: replace the binding if the key is
present, otherwise add it. -/
def setField : Record → String → Value → Record
  | [], key, v => [(key, v)]
  | (k, w) :: rest, key, v =>
    if k == key then (k, v) :: rest else (k, w) :: setField rest key v

/-- Sort key/value string pairs by key: Go's `fmt` prints maps with sorted
keys. -/
def sortPairs (l : List (String × String)) : List (String × String) :=
  List.insertionSort (fun a b => a.1 ≤ b.1) l

mutual

/-- Go's generic stringification `fmt.Sprintf` with verb `%v`, applied to a
dynamically typed value (src/main.go:163, 172, 199). Integer-valued float64
numbers print without a decimal point, nil prints as `<nil>`, slices print
space-separated in brackets, maps print sorted as `map[k:v ...]`. -/
def sprintfV : Value → String
  | Value.str s => s
  | Value.num n => toString n
  | Value.bool b => if b then "true" else "false"
  | Value.null => "<nil>"
  | Value.list es => "[" ++ String.intercalate " " (sprintfVList es) ++ "]"
  | Value.obj fs =>
      "map[" ++ String.intercalate " "
        ((sortPairs (sprintfVPairs fs)).map (fun p => p.1 ++ ":" ++ p.2)) ++ "]"

/-- The function `sprintfV` mapped over the elements of a slice. -/
def sprintfVList : List Value → List String
  | [] => []
  | v :: vs => sprintfV v :: sprintfVList vs

/-- The function `sprintfV` mapped over the values of a nested map. -/
def sprintfVPairs : List (String × Value) → List (String × String)
  | [] => []
  | (k, v) :: fs => (k, sprintfV v) :: sprintfVPairs fs

end

/-- The Go reflection kinds relevant to the pipeline. -/
inductive GoKind where
  | string
  | float64
  | boolKind
  | slice
  | mapKind
  deriving DecidableEq

/-- The reflection kind test `reflect.TypeOf(v).Kind()` (src/main.go:159).
For `v = nil`
(a JSON null), `reflect.TypeOf` returns a nil `reflect.Type` and the `Kind`
call panics with a nil-pointer dereference: modelled as `none`. -/
def goKind : Value → Option GoKind
  | Value.str _ => some GoKind.string
  | Value.num _ => some GoKind.float64
  | Value.bool _ => some GoKind.boolKind
  | Value.null => none
  | Value.list _ => some GoKind.slice
  | Value.obj _ => some GoKind.mapKind

/-- The elements of a slice value (`reflect.ValueOf(v).Index(i)`,
src/main.go:160-163). Only consulted when `goKind v = slice`. -/
def sliceElems : Value → List Value
  | Value.list es => es
  | _ => []

/-- The result of `urlshaper.Parser.Parse` (external library), at its
interface boundary: `PathFields` and `QueryFields` are Go
`url.Values` maps (string to string list), modelled as association lists
with unique keys. -/
structure ShaperResult where
  uri : String
  path : String
  pathFields : List (String × List String)
  pathShape : String
  query : String
  queryFields : List (String × List String)
  queryShape : String

/-- The write sequence of the successful-parse branch (src/main.go:174-184):
`k.path`, each `k.pathFields.<name>`, `k.pathShape`, `k.query`, each
`k.queryFields.<name>`, `k.queryShape`, `k.uri` — all plain map
assignments. -/
def applyShaper (k : String) (res : ShaperResult) (rec : Record) : Record :=
  let r1 := setField rec (k ++ ".path") (Value.str res.path)
  let r2 := res.pathFields.foldl
    (fun r pkv =>
      setField r ((k ++ ".pathFields.") ++ pkv.1)
        (Value.str (String.intercalate "," pkv.2))) r1
  let r3 := setField r2 (k ++ ".pathShape") (Value.str res.pathShape)
  let r4 := setField r3 (k ++ ".query") (Value.str res.query)
  let r5 := res.queryFields.foldl
    (fun r qkv =>
      setField r ((k ++ ".queryFields.") ++ qkv.1)
        (Value.str (String.intercalate "," qkv.2))) r4
  let r6 := setField r5 (k ++ ".queryShape") (Value.str res.queryShape)
  setField r6 (k ++ ".uri") (Value.str res.uri)

/-- The per-field URL loop (src/main.go:170-188):
`for _, f := range urlFields ... if k == f ... break`.
The `break` is the last statement of the loop body and runs unconditionally,
so only the head of `urlFields` is ever compared against `k`. The parse
input is the generic string form of `v`, the value captured when the field
was visited (src/main.go:172). -/
def urlLoop (parse : String → Option ShaperResult) (k : String) (v : Value)
    (urlFields : List String) (rec : Record) : Record :=
  match urlFields with
  | [] => rec
  | f :: _ =>
    if k == f then
      match parse (sprintfV v) with
      | some res => applyShaper k res rec
      | none => rec
    else rec

/-- One iteration of the `cleanData` range loop for the field named `k`
(src/main.go:156-188): read the field's current value `v`; panic (`none`) if
`v` is nil; if `v` is a slice, replace the field with the comma-join of the
generic string forms of its elements; then run the URL-field loop with the
captured `v`. -/
def cleanField (urlFields : List String) (parse : String → Option ShaperResult)
    (rec : Record) (k : String) : Option Record :=
  match lookupField rec k with
  | none => some rec
  | some v =>
    match goKind v with
    | none => none
    | some kind =>
      let rec1 :=
        if kind = GoKind.slice then
          setField rec k
            (Value.str (String.intercalate "," ((sliceElems v).map sprintfV)))
        else rec
      some (urlLoop parse k v urlFields rec1)

/-- The `cleanData` range loop over the record's original field names in
order, threading the record state. (Go's map iteration order is
unspecified; entries present at the start are each visited once, and the
value seen is the current one at visit time — modelled by visiting the
original keys in list order and reading through `lookupField`.) -/
def cleanFold (urlFields : List String) (parse : String → Option ShaperResult) :
    List String → Record → Option Record
  | [], rec => some rec
  | k :: ks, rec =>
    match cleanField urlFields parse rec k with
    | none => none
    | some rec' => cleanFold urlFields parse ks rec'

/-- The function `cleanData` (src/main.go:152-190): in-place normalization of a decoded
record. `none` models a panic escaping the function (nil value under
`reflect.TypeOf(v).Kind()`). -/
def cleanData (urlFields : List String) (parse : String → Option ShaperResult)
    (data : Record) : Option Record :=
  cleanFold urlFields parse (data.map Prod.fst) data

/-- The constant `KeySeperatorChar` (src/main.go:23): the literal three-character
separator string in the source. -/
def KeySeperatorChar : String := "â€¢"

/-- The constant `MaxLineLength` (src/main.go:24). -/
def MaxLineLength : Nat := 65536

/-- The sampling-key construction inlined in `determineSampleRate`
(src/main.go:196-202): `keys := make([]string, len(samplingFields))` is
zero-initialized to empty strings; each position is assigned the field's
generic string form when the field is present (each index written at most
once, so the loop is the map below); the key joins all positions with
`KeySeperatorChar`. -/
def samplingKey (samplingFields : List String) (data : Record) : String :=
  String.intercalate KeySeperatorChar
    (samplingFields.map (fun field =>
      match lookupField data field with
      | some val => sprintfV val
      | none => ""))

/-- The library call `rand.Intn n` at its interface boundary: `draw` is the abstract
value of the process-wide uniform source for this call; `Intn` panics
(`none`) when `n ≤ 0`, and otherwise returns a uniform integer in
`[0, n)`, modelled as `draw % n`. -/
def randIntn (draw : Nat) (n : Int) : Option Nat :=
  if n ≤ 0 then none else some (draw % n.toNat)

/-- The function `determineSampleRate` (src/main.go:192-211): build the sampling key,
ask the sampler (`getSampleRate` is the external dynsampler oracle), clamp
any rate below 1 to 1, then keep exactly when `rand.Intn(rate)` is 0.
`none` models a `rand.Intn` panic. -/
def determineSampleRate (getSampleRate : String → Int) (draw : Nat)
    (samplingFields : List String) (data : Record) :
    Option (Int × Bool × String) :=
  let key := samplingKey samplingFields data
  let rate0 := getSampleRate key
  let rate := if rate0 < 1 then 1 else rate0
  (randIntn draw rate).map (fun d => (rate, d == 0, key))

/-- The external collaborators of `readNewData`, fixed for the duration of
one request: the JSON decoder, the urlshaper parser, the dynsampler rate
oracle, the `math/rand` draw stream (indexed by the number of
`determineSampleRate` calls made so far in the request), and the libhoney
sink outcomes for `ev.Add` and `ev.SendPresampled` on a given cleaned
record (`true` = no error). -/
structure Env where
  jsonParse : String → Option Record
  shaperParse : String → Option ShaperResult
  getSampleRate : String → Int
  draw : Nat → Nat
  addOk : Record → Bool
  sendOk : Record → Bool
  urlFields : List String
  samplingFields : List String

/-- The `for scanner.Scan()` loop of `readNewData` (src/main.go:109-145)
over the body's lines. A line longer than the scanner's maximum buffer
makes `Scan` return false (`bufio.ErrTooLong`), ending the loop before the
line is counted; the error is never examined, so the function proceeds to
its normal exit. Per scanned line: `total` is incremented; a JSON decode
failure continues to the next line; `cleanData` may panic (`none`, which
aborts the whole request); then `determineSampleRate`, and when `keep`
holds, `ev.Add` and `ev.SendPresampled` each continue on error, and
`success` is incremented otherwise. -/
def ingestLoop (env : Env) :
    List String → Nat → Nat → Nat → Option (Nat × Nat)
  | [], total, success, _ => some (total, success)
  | line :: rest, total, success, idx =>
    if MaxLineLength < line.length then
      some (total, success)
    else
      match env.jsonParse line with
      | none => ingestLoop env rest (total + 1) success idx
      | some data =>
        match cleanData env.urlFields env.shaperParse data with
        | none => none
        | some cleaned =>
          match determineSampleRate env.getSampleRate (env.draw idx)
              env.samplingFields cleaned with
          | none => none
          | some (_rate, keep, _key) =>
            if keep then
              if env.addOk cleaned then
                if env.sendOk cleaned then
                  ingestLoop env rest (total + 1) (success + 1) (idx + 1)
                else ingestLoop env rest (total + 1) success (idx + 1)
              else ingestLoop env rest (total + 1) success (idx + 1)
            else ingestLoop env rest (total + 1) success (idx + 1)

/-- The handler `readNewData` (src/main.go:101-150): run the ingestion loop from zero
counters, then respond `200` unconditionally (`w.WriteHeader(200)`,
src/main.go:149). The result is `(total, success, httpStatus)`; `none`
models a panic escaping the handler (no response written). -/
def readNewData (env : Env) (lines : List String) : Option (Nat × Nat × Nat) :=
  (ingestLoop env lines 0 0 0).map (fun ts => (ts.1, ts.2, 200))

end HoneyLog

namespace HoneyLog

/-! ## Basic lemmas about record operations -/

theorem lookupField_setField_self (rec : Record) (k : String) (v : Value) :
    lookupField (setField rec k v) k = some v := by
  induction rec with
  | nil => simp [setField, lookupField]
  | cons p rest ih =>
    obtain ⟨k', w⟩ := p
    by_cases h : k' = k
    · subst h
      simp [setField, lookupField]
    · simp only [setField, beq_iff_eq, if_neg h, lookupField]
      exact ih

theorem lookupField_setField_ne (rec : Record) (key k : String) (v : Value)
    (h : key ≠ k) : lookupField (setField rec k v) key = lookupField rec key := by
  induction rec with
  | nil =>
    simp only [setField, lookupField]
    rw [if_neg (by simpa using fun e => h e.symm)]
  | cons p rest ih =>
    obtain ⟨k', w⟩ := p
    by_cases hk : k' = k
    · subst hk
      simp only [setField, beq_self_eq_true, if_pos rfl, lookupField]
      rw [if_neg (by simpa using fun e => h e.symm),
         if_neg (by simpa using fun e => h e.symm)]
    · simp only [setField, beq_iff_eq, if_neg hk, lookupField]
      by_cases hkey : k' = key
      · subst hkey
        simp
      · rw [if_neg (by simpa using hkey), if_neg (by simpa using hkey)]
        exact ih

theorem lookupField_some_mem (rec : Record) (k : String) (v : Value)
    (h : lookupField rec k = some v) : k ∈ rec.map Prod.fst := by
  induction rec with
  | nil => simp [lookupField] at h
  | cons p rest ih =>
    obtain ⟨k', w⟩ := p
    simp only [lookupField] at h
    by_cases hk : k' = k
    · simp [hk]
    · rw [if_neg (by simpa using hk)] at h
      simp [ih h]

/-! ## String append helpers -/

theorem appendLeftCancel {s a b : String} (h : s ++ a = s ++ b) : a = b := by
  apply String.ext
  have hd := congrArg String.data h
  simp only [String.data_append] at hd
  exact List.append_cancel_left hd

theorem append_ne_append_right (s a b : String) (h : a ≠ b) : s ++ a ≠ s ++ b :=
  fun he => h (appendLeftCancel he)

theorem append_ne_of_length_lt (p t s : String) (h : s.length < p.length) :
    p ++ t ≠ s := by
  intro he
  have hl := congrArg String.length he
  rw [String.length_append] at hl
  omega

theorem append_ne_of_length_lt' (p t s : String) (h : s.length < p.length) :
    s ≠ p ++ t := fun he => append_ne_of_length_lt p t s h he.symm

/-- A scalar derived key `k ++ suf` never coincides with a family derived
key `(k ++ pre) ++ t` when the suffix is shorter than the family prefix. -/
theorem scalar_ne_family (k suf pre t : String) (h : suf.length < pre.length) :
    k ++ suf ≠ (k ++ pre) ++ t := by
  rw [String.append_assoc]
  exact fun he => append_ne_of_length_lt pre t suf h (appendLeftCancel he).symm

theorem family_ne_scalar (k pre t suf : String) (h : suf.length < pre.length) :
    (k ++ pre) ++ t ≠ k ++ suf :=
  fun he => scalar_ne_family k suf pre t h he.symm

/-- The `queryFields` derived names never collide with the `pathFields`
derived names: the second character differs. -/
theorem queryFields_ne_pathFields (q p : String) :
    (".queryFields." ++ q : String) ≠ ".pathFields." ++ p := by
  intro he
  have hd := congrArg String.data he
  simp only [String.data_append] at hd
  simp at hd

theorem pf_ne_qf_key (k p q : String) :
    (k ++ ".pathFields.") ++ p ≠ (k ++ ".queryFields.") ++ q := by
  rw [String.append_assoc, String.append_assoc]
  exact fun he => queryFields_ne_pathFields q p (appendLeftCancel he).symm


end HoneyLog

namespace HoneyLog

/-! ## Lookup lemmas for the URL-derivation write sequence -/

theorem prefix_of_eq_append {k suf : String} (r : List Char)
    (h : suf.data = '.' :: r) : (k ++ ".").data <+: (k ++ suf).data := by
  simp only [String.data_append, h]
  have he : k.data ++ '.' :: r = (k.data ++ ['.']) ++ r := by simp
  rw [he]
  exact List.prefix_append _ _

theorem not_prefix_ne {k key suf : String} (r : List Char)
    (h : ¬ ((k ++ ".").data <+: key.data)) (hsuf : suf.data = '.' :: r) :
    key ≠ k ++ suf :=
  fun he => h (he ▸ prefix_of_eq_append r hsuf)

theorem lookupField_foldlPairs_ne (pre : String)
    (l : List (String × List String)) (rec : Record) (key : String)
    (h : ∀ p ∈ l, key ≠ pre ++ p.1) :
    lookupField
      (l.foldl (fun r p =>
        setField r (pre ++ p.1) (Value.str (String.intercalate "," p.2))) rec)
      key = lookupField rec key := by
  induction l generalizing rec with
  | nil => rfl
  | cons a rest ih =>
    simp only [List.foldl_cons]
    rw [ih _ (fun b hb => h b (List.mem_cons_of_mem a hb))]
    exact lookupField_setField_ne _ _ _ _ (h a (List.mem_cons_self a rest))

theorem lookupField_foldlPairs_mem (pre : String)
    (l : List (String × List String)) (rec : Record) (pk : String)
    (pv : List String) (hmem : (pk, pv) ∈ l)
    (hnodup : (l.map Prod.fst).Nodup) :
    lookupField
      (l.foldl (fun r p =>
        setField r (pre ++ p.1) (Value.str (String.intercalate "," p.2))) rec)
      (pre ++ pk) = some (Value.str (String.intercalate "," pv)) := by
  induction l generalizing rec with
  | nil => simp at hmem
  | cons a rest ih =>
    simp only [List.map_cons, List.nodup_cons] at hnodup
    simp only [List.foldl_cons]
    rcases List.mem_cons.mp hmem with hea | hmem'
    · subst hea
      rw [lookupField_foldlPairs_ne pre rest _ _ (fun p hp he => ?_)]
      · exact lookupField_setField_self _ _ _
      · have hpk : pk = p.1 := appendLeftCancel he
        exact hnodup.1 (by rw [hpk]; exact List.mem_map.mpr ⟨p, hp, rfl⟩)
    · exact ih _ hmem' hnodup.2

theorem applyShaper_uri (k : String) (res : ShaperResult) (rec : Record) :
    lookupField (applyShaper k res rec) (k ++ ".uri")
      = some (Value.str res.uri) := by
  unfold applyShaper
  exact lookupField_setField_self _ _ _

theorem applyShaper_queryShape (k : String) (res : ShaperResult) (rec : Record) :
    lookupField (applyShaper k res rec) (k ++ ".queryShape")
      = some (Value.str res.queryShape) := by
  unfold applyShaper
  rw [lookupField_setField_ne _ _ _ _
    (append_ne_append_right k ".queryShape" ".uri" (by decide))]
  exact lookupField_setField_self _ _ _

theorem applyShaper_query (k : String) (res : ShaperResult) (rec : Record) :
    lookupField (applyShaper k res rec) (k ++ ".query")
      = some (Value.str res.query) := by
  unfold applyShaper
  rw [lookupField_setField_ne _ _ _ _
        (append_ne_append_right k ".query" ".uri" (by decide)),
      lookupField_setField_ne _ _ _ _
        (append_ne_append_right k ".query" ".queryShape" (by decide)),
      lookupField_foldlPairs_ne _ _ _ _
        (fun p _ => scalar_ne_family k ".query" ".queryFields." p.1 (by decide))]
  exact lookupField_setField_self _ _ _

theorem applyShaper_pathShape (k : String) (res : ShaperResult) (rec : Record) :
    lookupField (applyShaper k res rec) (k ++ ".pathShape")
      = some (Value.str res.pathShape) := by
  unfold applyShaper
  rw [lookupField_setField_ne _ _ _ _
        (append_ne_append_right k ".pathShape" ".uri" (by decide)),
      lookupField_setField_ne _ _ _ _
        (append_ne_append_right k ".pathShape" ".queryShape" (by decide)),
      lookupField_foldlPairs_ne _ _ _ _
        (fun p _ => scalar_ne_family k ".pathShape" ".queryFields." p.1 (by decide)),
      lookupField_setField_ne _ _ _ _
        (append_ne_append_right k ".pathShape" ".query" (by decide))]
  exact lookupField_setField_self _ _ _

theorem applyShaper_path (k : String) (res : ShaperResult) (rec : Record) :
    lookupField (applyShaper k res rec) (k ++ ".path")
      = some (Value.str res.path) := by
  unfold applyShaper
  rw [lookupField_setField_ne _ _ _ _
        (append_ne_append_right k ".path" ".uri" (by decide)),
      lookupField_setField_ne _ _ _ _
        (append_ne_append_right k ".path" ".queryShape" (by decide)),
      lookupField_foldlPairs_ne _ _ _ _
        (fun p _ => scalar_ne_family k ".path" ".queryFields." p.1 (by decide)),
      lookupField_setField_ne _ _ _ _
        (append_ne_append_right k ".path" ".query" (by decide)),
      lookupField_setField_ne _ _ _ _
        (append_ne_append_right k ".path" ".pathShape" (by decide)),
      lookupField_foldlPairs_ne _ _ _ _
        (fun p _ => scalar_ne_family k ".path" ".pathFields." p.1 (by decide))]
  exact lookupField_setField_self _ _ _

theorem applyShaper_pathFields (k : String) (res : ShaperResult) (rec : Record)
    (pk : String) (pv : List String) (hmem : (pk, pv) ∈ res.pathFields)
    (hnodup : (res.pathFields.map Prod.fst).Nodup) :
    lookupField (applyShaper k res rec) ((k ++ ".pathFields.") ++ pk)
      = some (Value.str (String.intercalate "," pv)) := by
  unfold applyShaper
  rw [lookupField_setField_ne _ _ _ _
        (family_ne_scalar k ".pathFields." pk ".uri" (by decide)),
      lookupField_setField_ne _ _ _ _
        (family_ne_scalar k ".pathFields." pk ".queryShape" (by decide)),
      lookupField_foldlPairs_ne _ _ _ _
        (fun p _ => pf_ne_qf_key k pk p.1),
      lookupField_setField_ne _ _ _ _
        (family_ne_scalar k ".pathFields." pk ".query" (by decide)),
      lookupField_setField_ne _ _ _ _
        (family_ne_scalar k ".pathFields." pk ".pathShape" (by decide))]
  exact lookupField_foldlPairs_mem _ _ _ _ _ hmem hnodup

theorem applyShaper_queryFields (k : String) (res : ShaperResult) (rec : Record)
    (qk : String) (qv : List String) (hmem : (qk, qv) ∈ res.queryFields)
    (hnodup : (res.queryFields.map Prod.fst).Nodup) :
    lookupField (applyShaper k res rec) ((k ++ ".queryFields.") ++ qk)
      = some (Value.str (String.intercalate "," qv)) := by
  unfold applyShaper
  rw [lookupField_setField_ne _ _ _ _
        (family_ne_scalar k ".queryFields." qk ".uri" (by decide)),
      lookupField_setField_ne _ _ _ _
        (family_ne_scalar k ".queryFields." qk ".queryShape" (by decide))]
  exact lookupField_foldlPairs_mem _ _ _ _ _ hmem hnodup

/-- The write sequence `applyShaper` only writes keys of which `k ++ "."`
is a prefix, so every other key keeps its binding. -/
theorem applyShaper_lookup_unrelated (k key : String) (res : ShaperResult)
    (rec : Record) (h : ¬ ((k ++ ".").data <+: key.data)) :
    lookupField (applyShaper k res rec) key = lookupField rec key := by
  unfold applyShaper
  rw [lookupField_setField_ne _ _ _ _ (not_prefix_ne "uri".data h rfl),
      lookupField_setField_ne _ _ _ _ (not_prefix_ne "queryShape".data h rfl),
      lookupField_foldlPairs_ne _ _ _ _ (fun p _ => by
        rw [String.append_assoc]
        refine not_prefix_ne ("queryFields.".data ++ p.1.data) h ?_
        simp [String.data_append]),
      lookupField_setField_ne _ _ _ _ (not_prefix_ne "query".data h rfl),
      lookupField_setField_ne _ _ _ _ (not_prefix_ne "pathShape".data h rfl),
      lookupField_foldlPairs_ne _ _ _ _ (fun p _ => by
        rw [String.append_assoc]
        refine not_prefix_ne ("pathFields.".data ++ p.1.data) h ?_
        simp [String.data_append]),
      lookupField_setField_ne _ _ _ _ (not_prefix_ne "path".data h rfl)]

/-! ## Persistence of bindings across the cleanData pass -/

theorem cleanField_eq (u : List String) (p : String → Option ShaperResult)
    (rec : Record) (k : String) :
    cleanField u p rec k =
      match lookupField rec k with
      | none => some rec
      | some v =>
        match goKind v with
        | none => none
        | some kind =>
          some (urlLoop p k v u
            (if kind = GoKind.slice then
              setField rec k
                (Value.str (String.intercalate "," ((sliceElems v).map sprintfV)))
            else rec)) := rfl

/-- A binding at a key that is not visited, and that no URL-derived write can
target, survives one `cleanData` iteration. -/
theorem cleanField_lookup_preserved (u : List String)
    (p : String → Option ShaperResult) (rec rec' : Record) (k key : String)
    (w : Value) (hne : key ≠ k)
    (hu : match u with
          | [] => True
          | f :: _ => k ≠ f ∨ ¬ ((f ++ ".").data <+: key.data))
    (hl : lookupField rec key = some w)
    (hc : cleanField u p rec k = some rec') :
    lookupField rec' key = some w := by
  rw [cleanField_eq] at hc
  split at hc
  · cases hc
    exact hl
  · rename_i v hv
    split at hc
    · exact Option.noConfusion hc
    · rename_i kind hg
      injection hc with hrec'
      subst hrec'
      have h1 : lookupField
          (if kind = GoKind.slice then
            setField rec k
              (Value.str (String.intercalate "," ((sliceElems v).map sprintfV)))
          else rec) key = some w := by
        by_cases hs : kind = GoKind.slice
        · rw [if_pos hs]
          rw [lookupField_setField_ne _ _ _ _ hne]
          exact hl
        · rw [if_neg hs]
          exact hl
      cases u with
      | nil => exact h1
      | cons f rest =>
        simp only [urlLoop]
        by_cases hkf : k = f
        · rw [if_pos (by simpa using hkf)]
          cases hp : p (sprintfV v) with
          | none => exact h1
          | some res =>
            rcases hu with hku | hpre
            · exact absurd hkf hku
            · subst hkf
              rw [applyShaper_lookup_unrelated _ _ _ _ hpre]
              exact h1
        · rw [if_neg (by simpa using hkf)]
          exact h1

/-- A string-valued binding survives one `cleanData` iteration whose visited
key is not the first configured URL field (strings are not slices, and
`applyShaper` fires only on the first URL field). -/
theorem cleanField_str_preserved (u : List String)
    (p : String → Option ShaperResult) (rec rec' : Record) (k key s : String)
    (hu : match u with | [] => True | f :: _ => k ≠ f)
    (hl : lookupField rec key = some (Value.str s))
    (hc : cleanField u p rec k = some rec') :
    lookupField rec' key = some (Value.str s) := by
  rw [cleanField_eq] at hc
  split at hc
  · cases hc
    exact hl
  · rename_i v hv
    split at hc
    · exact Option.noConfusion hc
    · rename_i kind hg
      injection hc with hrec'
      subst hrec'
      have h1 : lookupField
          (if kind = GoKind.slice then
            setField rec k
              (Value.str (String.intercalate "," ((sliceElems v).map sprintfV)))
          else rec) key = some (Value.str s) := by
        by_cases hkey : key = k
        · subst hkey
          rw [hv] at hl
          injection hl with hvs
          subst hvs
          simp only [goKind] at hg
          injection hg with hkind
          rw [if_neg (by rw [← hkind]; decide)]
          exact hv
        · by_cases hs : kind = GoKind.slice
          · rw [if_pos hs, lookupField_setField_ne _ _ _ _ hkey]
            exact hl
          · rw [if_neg hs]
            exact hl
      cases u with
      | nil => exact h1
      | cons f rest =>
        simp only [urlLoop]
        rw [if_neg (by simpa using hu)]
        exact h1

theorem cleanFold_append (u : List String) (p : String → Option ShaperResult)
    (ks1 ks2 : List String) (rec : Record) :
    cleanFold u p (ks1 ++ ks2) rec =
      match cleanFold u p ks1 rec with
      | none => none
      | some rec' => cleanFold u p ks2 rec' := by
  induction ks1 generalizing rec with
  | nil => rfl
  | cons k ks ih =>
    simp only [List.cons_append, cleanFold]
    cases cleanField u p rec k with
    | none => rfl
    | some rec' => exact ih rec'

theorem cleanFold_lookup_preserved (u : List String)
    (p : String → Option ShaperResult) (key : String) (ks : List String) :
    ∀ (rec out : Record) (w : Value),
    key ∉ ks →
    (match u with
     | [] => True
     | f :: _ => f ∉ ks ∨ ¬ ((f ++ ".").data <+: key.data)) →
    lookupField rec key = some w →
    cleanFold u p ks rec = some out →
    lookupField out key = some w := by
  induction ks with
  | nil =>
    intro rec out w _ _ hl hf
    cases hf
    exact hl
  | cons k ks ih =>
    intro rec out w hk hu hl hf
    simp only [cleanFold] at hf
    cases hc : cleanField u p rec k with
    | none => rw [hc] at hf; exact Option.noConfusion hf
    | some rec' =>
      rw [hc] at hf
      have hne : key ≠ k := fun he => hk (he ▸ List.mem_cons_self k ks)
      have hl' : lookupField rec' key = some w := by
        refine cleanField_lookup_preserved u p rec rec' k key w hne ?_ hl hc
        cases u with
        | nil => trivial
        | cons f rest =>
          rcases hu with hf' | hpre
          · exact Or.inl (fun he => hf' (he ▸ List.mem_cons_self k ks))
          · exact Or.inr hpre
      refine ih rec' out w (fun he => hk (List.mem_cons_of_mem k he)) ?_ hl' hf
      cases u with
      | nil => trivial
      | cons f rest =>
        rcases hu with hf' | hpre
        · exact Or.inl (fun he => hf' (List.mem_cons_of_mem k he))
        · exact Or.inr hpre

theorem cleanFold_str_preserved (u : List String)
    (p : String → Option ShaperResult) (key s : String) (ks : List String) :
    ∀ (rec out : Record),
    (match u with | [] => True | f :: _ => f ∉ ks) →
    lookupField rec key = some (Value.str s) →
    cleanFold u p ks rec = some out →
    lookupField out key = some (Value.str s) := by
  induction ks with
  | nil =>
    intro rec out _ hl hf
    cases hf
    exact hl
  | cons k ks ih =>
    intro rec out hu hl hf
    simp only [cleanFold] at hf
    cases hc : cleanField u p rec k with
    | none => rw [hc] at hf; exact Option.noConfusion hf
    | some rec' =>
      rw [hc] at hf
      have hl' : lookupField rec' key = some (Value.str s) := by
        refine cleanField_str_preserved u p rec rec' k key s ?_ hl hc
        cases u with
        | nil => trivial
        | cons f rest =>
          exact fun he => hu (he ▸ List.mem_cons_self k ks)
      refine ih rec' out ?_ hl' hf
      cases u with
      | nil => trivial
      | cons f rest =>
        exact fun he => hu (List.mem_cons_of_mem k he)

/-! ## Claim theorems about cleanData -/

/-- C3: the claim states the field normalizer is total — it mutates the
record in place and never raises an error or panic for any combination of
field values including null. The code violates this: for a record with a
null-valued field (e.g. the body line `a: null` decoded), `cleanData`
evaluates `reflect.TypeOf(v).Kind()` with `v = nil` (src/main.go:159),
which panics with a nil-pointer dereference. The model returns `none`
(panic) on this record. -/
theorem cleanData_panics_on_null :
    cleanData [] (fun _ => none) [("a", Value.null)] = none := rfl

/-- C7: the normalizer attempts URL decomposition only against the first
entry of the configured URL-field list — the per-field loop exits after the
first comparison regardless of match or parse success (the unconditional
`break` at src/main.go:187) — so `cleanData` under `f :: rest` is
exactly `cleanData` under `[f]`, and a URL field configured in any
position after the first is never decomposed. -/
theorem url_first_field_only (f : String) (rest : List String)
    (p : String → Option ShaperResult) (data : Record) :
    cleanData (f :: rest) p data = cleanData [f] p data := by
  unfold cleanData
  generalize data.map Prod.fst = ks
  induction ks generalizing data with
  | nil => rfl
  | cons k ks ih =>
    simp only [cleanFold]
    have hcf : cleanField (f :: rest) p data k = cleanField [f] p data k := rfl
    rw [hcf]
    cases cleanField [f] p data k with
    | none => rfl
    | some rec' => exact ih rec'

/-- C6: a record field holding a list is replaced by the single string
joining the generic string representation of each element with a comma
(src/main.go:159-165). Side conditions: the record's keys are unique (it
came from `json.Unmarshal`), normalization completed without the null
panic, and the field's name is not itself a URL-derived name of the first
configured URL field (such a name would be overwritten by the URL
decomposition writes). -/
theorem list_field_flattened (u : List String)
    (p : String → Option ShaperResult) (data out : Record) (k : String)
    (es : List Value) (hnodup : (data.map Prod.fst).Nodup)
    (hlk : lookupField data k = some (Value.list es))
    (hfree : match u with
             | [] => True
             | f :: _ => ¬ ((f ++ ".").data <+: k.data))
    (hout : cleanData u p data = some out) :
    lookupField out k
      = some (Value.str (String.intercalate "," (es.map sprintfV))) := by
  have hkmem : k ∈ data.map Prod.fst := lookupField_some_mem data k _ hlk
  obtain ⟨ks1, ks2, hks⟩ := List.append_of_mem hkmem
  unfold cleanData at hout
  rw [hks] at hout hnodup
  rw [List.nodup_append] at hnodup
  obtain ⟨hnd1, hnd2, hdisj⟩ := hnodup
  have hk1 : k ∉ ks1 := fun hin => hdisj hin (List.mem_cons_self k ks2)
  rw [List.nodup_cons] at hnd2
  have hk2 : k ∉ ks2 := hnd2.1
  rw [cleanFold_append] at hout
  cases h1 : cleanFold u p ks1 data with
  | none => rw [h1] at hout; exact Option.noConfusion hout
  | some rec1 =>
    rw [h1] at hout
    have hl1 : lookupField rec1 k = some (Value.list es) := by
      refine cleanFold_lookup_preserved u p k ks1 data rec1 _ hk1 ?_ hlk h1
      cases u with
      | nil => trivial
      | cons f rest => exact Or.inr hfree
    simp only [cleanFold] at hout
    cases hc : cleanField u p rec1 k with
    | none => rw [hc] at hout; exact Option.noConfusion hout
    | some rec2 =>
      rw [hc] at hout
      have hl2 : lookupField rec2 k
          = some (Value.str (String.intercalate "," (es.map sprintfV))) := by
        rw [cleanField_eq, hl1] at hc
        simp only [goKind] at hc
        injection hc with hrec2
        subst hrec2
        simp only [if_true]
        cases u with
        | nil =>
          simp only [urlLoop]
          exact lookupField_setField_self _ _ _
        | cons f rest =>
          simp only [urlLoop]
          by_cases hkf : k = f
          · rw [if_pos (by simpa using hkf)]
            cases hp : p (sprintfV (Value.list es)) with
            | none => exact lookupField_setField_self _ _ _
            | some res =>
              subst hkf
              rw [applyShaper_lookup_unrelated _ _ _ _ hfree]
              exact lookupField_setField_self _ _ _
          · rw [if_neg (by simpa using hkf)]
            exact lookupField_setField_self _ _ _
      refine cleanFold_lookup_preserved u p k ks2 rec2 out _ hk2 ?_ hl2 hout
      cases u with
      | nil => trivial
      | cons f rest => exact Or.inr hfree

def parseC6 : String → Option ShaperResult := fun _ => none

def dataC6 : Record :=
  [("tags", Value.list [Value.str "a", Value.str "b", Value.str "c"])]

def outC6 : Record := [("tags", Value.str "a,b,c")]

theorem list_field_flattened_witness :
    ((dataC6.map Prod.fst).Nodup ∧
      lookupField dataC6 "tags"
        = some (Value.list [Value.str "a", Value.str "b", Value.str "c"]) ∧
      ¬ (("u" ++ ".").data <+: "tags".data) ∧
      cleanData ["u"] parseC6 dataC6 = some outC6) ∧
    lookupField outC6 "tags" = some (Value.str "a,b,c") :=
  ⟨⟨by decide, rfl, by decide, rfl⟩,
    list_field_flattened ["u"] parseC6 dataC6 outC6 "tags"
      [Value.str "a", Value.str "b", Value.str "c"]
      (by decide) rfl (by decide) rfl⟩

theorem urlLoop_head_parse (p : String → Option ShaperResult) (f : String)
    (v : Value) (rest : List String) (rec : Record) (res : ShaperResult)
    (hp : p (sprintfV v) = some res) :
    urlLoop p f v (f :: rest) rec = applyShaper f res rec := by
  simp [urlLoop, hp]

theorem cleanField_of_lookup (u : List String)
    (p : String → Option ShaperResult) (rec : Record) (k : String) (v : Value)
    (hv : lookupField rec k = some v) :
    cleanField u p rec k =
      match goKind v with
      | none => none
      | some kind =>
        some (urlLoop p k v u
          (if kind = GoKind.slice then
            setField rec k
              (Value.str (String.intercalate "," ((sliceElems v).map sprintfV)))
          else rec)) := by
  rw [cleanField_eq, hv]

theorem cleanField_of_kind (u : List String)
    (p : String → Option ShaperResult) (rec : Record) (k : String) (v : Value)
    (kind : GoKind) (hv : lookupField rec k = some v)
    (hg : goKind v = some kind) :
    cleanField u p rec k =
      some (urlLoop p k v u
        (if kind = GoKind.slice then
          setField rec k
            (Value.str (String.intercalate "," ((sliceElems v).map sprintfV)))
        else rec)) := by
  rw [cleanField_of_lookup u p rec k v hv, hg]

theorem cleanField_none_of_null (u : List String)
    (p : String → Option ShaperResult) (rec : Record) (k : String) (v : Value)
    (hv : lookupField rec k = some v) (hg : goKind v = none) :
    cleanField u p rec k = none := by
  rw [cleanField_of_lookup u p rec k v hv, hg]

def parseC2 : String → Option ShaperResult := fun s =>
  if s = "/x/1?y=2" then
    some { uri := "/x/1?y=2", path := "/x/1", pathFields := [],
           pathShape := "/x/?", query := "y=2",
           queryFields := [("y", ["2"])], queryShape := "y=?" }
  else none

def dataC2 : Record :=
  [("u", Value.str "/x/1?y=2"), ("u.path", Value.str "orig")]

def outC2 : Record :=
  [("u", Value.str "/x/1?y=2"), ("u.path", Value.str "/x/1"),
   ("u.pathShape", Value.str "/x/?"), ("u.query", Value.str "y=2"),
   ("u.queryFields.y", Value.str "2"), ("u.queryShape", Value.str "y=?"),
   ("u.uri", Value.str "/x/1?y=2")]

def dataC2b : Record := [("b", Value.str "/x/1?y=2")]

/-- C2 counterexample. The claim says (a) the derived sub-fields are added
for every configured URL field, and (b) a pre-existing field of the same
derived name is never overwritten. Both fail on the code:
(1) with `urlFields = u` and a record that already contains the
field `u.path` with value `orig`, `cleanData` overwrites it with the
parsed path `/x/1` (plain map assignment, src/main.go:174);
(2) with `urlFields = a, b` and a record whose field `b` holds a
parseable URL, `b` is never decomposed (no `b.path` is added), because the
unconditional `break` (src/main.go:187) stops the loop after comparing
against `a` only. -/
theorem urlDecompose_claim_ce :
    (lookupField dataC2 "u.path" = some (Value.str "orig") ∧
      cleanData ["u"] parseC2 dataC2 = some outC2 ∧
      lookupField outC2 "u.path" = some (Value.str "/x/1")) ∧
    (cleanData ["a", "b"] parseC2 dataC2b = some dataC2b ∧
      lookupField dataC2b "b.path" = none) :=
  ⟨⟨rfl, rfl, rfl⟩, ⟨rfl, rfl⟩⟩

/-- C2 amended: only the first configured URL field is considered per
record; when the record has that field and its captured value parses as a
URL-shaped string, the normalizer sets every derived sub-field
(`path`, `pathFields.<name>`, `pathShape`, `query`, `queryFields.<name>`,
`queryShape`, `uri`), overwriting any field of the same derived name that
already existed. Side conditions: unique record keys and unique
path/query parameter names (all Go maps), and the pass completed without
the null panic. -/
theorem urlDecompose_first_field (f : String) (rest : List String)
    (p : String → Option ShaperResult) (data out : Record) (v : Value)
    (res : ShaperResult)
    (hnodup : (data.map Prod.fst).Nodup)
    (hv : lookupField data f = some v)
    (hparse : p (sprintfV v) = some res)
    (hpnodup : (res.pathFields.map Prod.fst).Nodup)
    (hqnodup : (res.queryFields.map Prod.fst).Nodup)
    (hout : cleanData (f :: rest) p data = some out) :
    lookupField out (f ++ ".path") = some (Value.str res.path) ∧
    lookupField out (f ++ ".pathShape") = some (Value.str res.pathShape) ∧
    lookupField out (f ++ ".query") = some (Value.str res.query) ∧
    lookupField out (f ++ ".queryShape") = some (Value.str res.queryShape) ∧
    lookupField out (f ++ ".uri") = some (Value.str res.uri) ∧
    (∀ pk pv, (pk, pv) ∈ res.pathFields →
      lookupField out ((f ++ ".pathFields.") ++ pk)
        = some (Value.str (String.intercalate "," pv))) ∧
    (∀ qk qv, (qk, qv) ∈ res.queryFields →
      lookupField out ((f ++ ".queryFields.") ++ qk)
        = some (Value.str (String.intercalate "," qv))) := by
  have hfmem : f ∈ data.map Prod.fst := lookupField_some_mem data f _ hv
  obtain ⟨ks1, ks2, hks⟩ := List.append_of_mem hfmem
  unfold cleanData at hout
  rw [hks] at hout hnodup
  rw [List.nodup_append] at hnodup
  obtain ⟨hnd1, hnd2, hdisj⟩ := hnodup
  have hf1 : f ∉ ks1 := fun hin => hdisj hin (List.mem_cons_self f ks2)
  rw [List.nodup_cons] at hnd2
  have hf2 : f ∉ ks2 := hnd2.1
  rw [cleanFold_append] at hout
  cases h1 : cleanFold (f :: rest) p ks1 data with
  | none => rw [h1] at hout; exact Option.noConfusion hout
  | some rec1 =>
    rw [h1] at hout
    have hl1 : lookupField rec1 f = some v := by
      refine cleanFold_lookup_preserved (f :: rest) p f ks1 data rec1 _ hf1 ?_ hv h1
      exact Or.inl hf1
    simp only [cleanFold] at hout
    cases hc : cleanField (f :: rest) p rec1 f with
    | none => rw [hc] at hout; exact Option.noConfusion hout
    | some rec2 =>
      rw [hc] at hout
      cases hg : goKind v with
      | none =>
        rw [cleanField_none_of_null _ _ _ _ _ hl1 hg] at hc
        exact Option.noConfusion hc
      | some kind =>
        rw [cleanField_of_kind _ _ _ _ _ _ hl1 hg] at hc
        injection hc with hrec2
        subst hrec2
        rw [urlLoop_head_parse p f v rest _ res hparse] at hout
        have hpersist : ∀ (key s : String),
            lookupField (applyShaper f res
              (if kind = GoKind.slice then
                setField rec1 f
                  (Value.str (String.intercalate ","
                    ((sliceElems v).map sprintfV)))
              else rec1)) key = some (Value.str s) →
            lookupField out key = some (Value.str s) := by
          intro key s hkey
          exact cleanFold_str_preserved (f :: rest) p key s ks2 _ out hf2 hkey hout
        refine ⟨hpersist _ _ (applyShaper_path f res _),
                hpersist _ _ (applyShaper_pathShape f res _),
                hpersist _ _ (applyShaper_query f res _),
                hpersist _ _ (applyShaper_queryShape f res _),
                hpersist _ _ (applyShaper_uri f res _),
                fun pk pv hmem =>
                  hpersist _ _ (applyShaper_pathFields f res _ pk pv hmem hpnodup),
                fun qk qv hmem =>
                  hpersist _ _ (applyShaper_queryFields f res _ qk qv hmem hqnodup)⟩

theorem urlDecompose_first_field_witness :
    ((dataC2b.map Prod.fst).Nodup ∧
      lookupField dataC2b "b" = some (Value.str "/x/1?y=2") ∧
      parseC2 (sprintfV (Value.str "/x/1?y=2")) = some
        { uri := "/x/1?y=2", path := "/x/1", pathFields := [],
          pathShape := "/x/?", query := "y=2",
          queryFields := [("y", ["2"])], queryShape := "y=?" } ∧
      cleanData ["b"] parseC2 dataC2b
        = some [("b", Value.str "/x/1?y=2"), ("b.path", Value.str "/x/1"),
                ("b.pathShape", Value.str "/x/?"), ("b.query", Value.str "y=2"),
                ("b.queryFields.y", Value.str "2"),
                ("b.queryShape", Value.str "y=?"),
                ("b.uri", Value.str "/x/1?y=2")]) ∧
    lookupField [("b", Value.str "/x/1?y=2"), ("b.path", Value.str "/x/1"),
                ("b.pathShape", Value.str "/x/?"), ("b.query", Value.str "y=2"),
                ("b.queryFields.y", Value.str "2"),
                ("b.queryShape", Value.str "y=?"),
                ("b.uri", Value.str "/x/1?y=2")] ("b" ++ ".path")
      = some (Value.str "/x/1") :=
  ⟨⟨by decide, rfl, rfl, rfl⟩,
    (urlDecompose_first_field "b" [] parseC2 dataC2b _ (Value.str "/x/1?y=2")
      { uri := "/x/1?y=2", path := "/x/1", pathFields := [],
        pathShape := "/x/?", query := "y=2",
        queryFields := [("y", ["2"])], queryShape := "y=?" }
      (by decide) rfl rfl (by decide) (by decide) rfl).1⟩

/-! ## Claim theorems about determineSampleRate -/

theorem determineSampleRate_spec (g : String → Int) (draw : Nat)
    (fields : List String) (data : Record) :
    ∃ rate keep, determineSampleRate g draw fields data
        = some (rate, keep, samplingKey fields data)
      ∧ 1 ≤ rate ∧ (rate = 1 → keep = true) := by
  simp only [determineSampleRate, randIntn]
  by_cases h : g (samplingKey fields data) < 1
  · rw [if_pos h, if_neg (by omega : ¬ (1 : Int) ≤ 0)]
    exact ⟨1, _, rfl, le_refl 1, fun _ => by simp [Nat.mod_one]⟩
  · rw [if_neg h,
       if_neg (show ¬ g (samplingKey fields data) ≤ 0 by omega)]
    exact ⟨g (samplingKey fields data), _, rfl, by omega,
      fun h1 => by simp [h1, Nat.mod_one]⟩

/-- C9: the decision stage clamps any sampler-returned rate below 1 to 1
before drawing, so the `rand.Intn` panic branch is unreachable (the result
is always `some`), the returned rate is at least 1, and a clamped rate of
1 always keeps the record (src/main.go:204-209). -/
theorem rate_clamped_and_keep (g : String → Int) (draw : Nat)
    (fields : List String) (data : Record) :
    (determineSampleRate g draw fields data).isSome ∧
    ∀ rate keep key, determineSampleRate g draw fields data
        = some (rate, keep, key) → 1 ≤ rate ∧ (rate = 1 → keep = true) := by
  obtain ⟨r, k, heq, hr, hk⟩ := determineSampleRate_spec g draw fields data
  refine ⟨by rw [heq]; rfl, ?_⟩
  intro rate keep key h
  rw [heq] at h
  injection h with hp
  simp only [Prod.mk.injEq] at hp
  obtain ⟨hp1, hp2, _⟩ := hp
  subst hp1
  subst hp2
  exact ⟨hr, hk⟩

def gC9 : String → Int := fun _ => 0

theorem rate_clamped_and_keep_witness :
    determineSampleRate gC9 5 ["a"] [] = some (1, true, "") ∧
    (1 ≤ (1 : Int) ∧ ((1 : Int) = 1 → true = true)) :=
  ⟨rfl, (rate_clamped_and_keep gC9 5 ["a"] []).2 1 true "" rfl⟩

/-- C8: the sampling key returned by `determineSampleRate` is the join,
with the fixed separator `KeySeperatorChar`, of one position per configured
field in order — the field's generic string form when present, the empty
string when absent (the zero value of `make([]string, n)`) — and key
construction is deterministic: records agreeing on all configured fields
produce the same key (src/main.go:196-202). -/
theorem sampling_key_join_deterministic (g : String → Int) (draw : Nat)
    (fields : List String) (d1 d2 : Record) (r1 : Int) (k1 : Bool)
    (key1 : String)
    (h1 : determineSampleRate g draw fields d1 = some (r1, k1, key1)) :
    key1 = String.intercalate KeySeperatorChar
        (fields.map (fun f =>
          match lookupField d1 f with
          | some val => sprintfV val
          | none => "")) ∧
    ((∀ f ∈ fields, lookupField d1 f = lookupField d2 f) →
      ∀ r2 k2 key2, determineSampleRate g draw fields d2 = some (r2, k2, key2)
        → key1 = key2) := by
  obtain ⟨r, k, heq, _, _⟩ := determineSampleRate_spec g draw fields d1
  rw [heq] at h1
  injection h1 with hp
  simp only [Prod.mk.injEq] at hp
  obtain ⟨_, _, h3⟩ := hp
  subst h3
  constructor
  · rfl
  · intro hagree r2 k2 key2 h2
    obtain ⟨r', k', heq2, _, _⟩ := determineSampleRate_spec g draw fields d2
    rw [heq2] at h2
    injection h2 with hp2
    simp only [Prod.mk.injEq] at hp2
    obtain ⟨_, _, h3'⟩ := hp2
    rw [← h3']
    unfold samplingKey
    congr 1
    exact List.map_congr_left (fun f hf => by rw [hagree f hf])

def dC8 : Record := [("a", Value.str "x"), ("b", Value.num 2)]

def keyC8 : String := String.intercalate KeySeperatorChar ["x", "2"]

theorem sampling_key_join_deterministic_witness :
    determineSampleRate (fun _ => 4) 0 ["a", "b"] dC8
      = some (4, true, keyC8) ∧
    (keyC8 = String.intercalate KeySeperatorChar
        (["a", "b"].map (fun f =>
          match lookupField dC8 f with
          | some val => sprintfV val
          | none => "")) ∧
      ((∀ f ∈ (["a", "b"] : List String),
          lookupField dC8 f = lookupField dC8 f) →
        ∀ r2 k2 key2, determineSampleRate (fun _ => 4) 0 ["a", "b"] dC8
            = some (r2, k2, key2) → keyC8 = key2)) :=
  ⟨rfl, sampling_key_join_deterministic (fun _ => 4) 0 ["a", "b"] dC8 dC8
    4 true keyC8 rfl⟩

/-- C10: for a configured field, a record where the field is absent and a
record where it is present with the empty-string value produce the identical
sampling key (other configured fields being equal): the absent position is
the zero value empty string, and the generic string form of an
empty-string value is also empty (src/main.go:196-202). -/
theorem absent_eq_empty_string_key (fields : List String) (d1 d2 : Record)
    (f : String) (h1 : lookupField d1 f = none)
    (h2 : lookupField d2 f = some (Value.str ""))
    (hrest : ∀ g ∈ fields, g ≠ f → lookupField d1 g = lookupField d2 g) :
    samplingKey fields d1 = samplingKey fields d2 := by
  unfold samplingKey
  congr 1
  refine List.map_congr_left (fun g hg => ?_)
  by_cases hgf : g = f
  · subst hgf
    rw [h1, h2]
    rfl
  · rw [hrest g hg hgf]

def d10a : Record := [("a", Value.str "x")]

def d10b : Record := [("a", Value.str "x"), ("f", Value.str "")]

theorem absent_eq_empty_string_key_witness :
    (lookupField d10a "f" = none ∧
      lookupField d10b "f" = some (Value.str "") ∧
      (∀ g ∈ (["a", "f"] : List String), g ≠ "f" →
        lookupField d10a g = lookupField d10b g)) ∧
    samplingKey ["a", "f"] d10a = samplingKey ["a", "f"] d10b := by
  have hrest : ∀ g ∈ (["a", "f"] : List String), g ≠ "f" →
      lookupField d10a g = lookupField d10b g := by
    intro g hg hne
    simp only [List.mem_cons, List.not_mem_nil, or_false] at hg
    rcases hg with rfl | rfl
    · rfl
    · exact absurd rfl hne
  exact ⟨⟨rfl, rfl, hrest⟩,
    absent_eq_empty_string_key ["a", "f"] d10a d10b "f" rfl rfl hrest⟩

/-! ## Claim theorems about the ingestion loop -/

/-- C5: once the handler's scan loop runs to completion, the HTTP response
status is unconditionally 200 (`w.WriteHeader(200)`, src/main.go:149),
regardless of how many per-line decode, enrichment, or sink errors
occurred. -/
theorem response_always_200 (env : Env) (lines : List String)
    (t s st : Nat) (h : readNewData env lines = some (t, s, st)) :
    st = 200 := by
  unfold readNewData at h
  cases hi : ingestLoop env lines 0 0 0 with
  | none => rw [hi] at h; exact Option.noConfusion h
  | some ts =>
    rw [hi] at h
    have h' : (some (ts.1, ts.2, 200) : Option (Nat × Nat × Nat))
        = some (t, s, st) := h
    injection h' with hp
    simp only [Prod.mk.injEq] at hp
    exact hp.2.2.symm

def envC5 : Env :=
  { jsonParse := fun _ => none, shaperParse := fun _ => none,
    getSampleRate := fun _ => 1, draw := fun _ => 0,
    addOk := fun _ => true, sendOk := fun _ => true,
    urlFields := [], samplingFields := [] }

theorem response_always_200_witness :
    readNewData envC5 ["ok"] = some (1, 0, 200) ∧ (200 : Nat) = 200 :=
  ⟨rfl, response_always_200 envC5 ["ok"] 1 0 200 rfl⟩

theorem ingestLoop_counts (env : Env) (lines : List String) :
    ∀ (total success idx : Nat),
    (∀ l ∈ lines, l.length ≤ MaxLineLength) →
    (∀ l ∈ lines, ∀ d, env.jsonParse l = some d →
      (cleanData env.urlFields env.shaperParse d).isSome) →
    ∃ s', ingestLoop env lines total success idx
        = some (total + lines.length, s')
      ∧ s' ≤ success + lines.countP (fun l => (env.jsonParse l).isSome) := by
  induction lines with
  | nil =>
    intro total success idx _ _
    exact ⟨success, by simp [ingestLoop], by simp⟩
  | cons line rest ih =>
    intro total success idx hlen hclean
    have hrlen : ∀ l ∈ rest, l.length ≤ MaxLineLength :=
      fun l hl => hlen l (List.mem_cons_of_mem _ hl)
    have hrclean : ∀ l ∈ rest, ∀ d, env.jsonParse l = some d →
        (cleanData env.urlFields env.shaperParse d).isSome :=
      fun l hl => hclean l (List.mem_cons_of_mem _ hl)
    have hl : ¬ MaxLineLength < line.length := by
      have := hlen line (List.mem_cons_self line rest)
      omega
    have hEq : total + (line :: rest).length = total + 1 + rest.length := by
      simp only [List.length_cons]
      omega
    rw [hEq]
    cases hp : env.jsonParse line with
    | none =>
      obtain ⟨s', hs1, hs2⟩ := ih (total + 1) success idx hrlen hrclean
      refine ⟨s', ?_, ?_⟩
      · simp only [ingestLoop, if_neg hl, hp]
        exact hs1
      · simp only [List.countP_cons, hp, Option.isSome_none,
          Bool.false_eq_true, if_false, Nat.add_zero]
        exact hs2
    | some data =>
      have hcountP : (line :: rest).countP (fun l => (env.jsonParse l).isSome)
          = rest.countP (fun l => (env.jsonParse l).isSome) + 1 := by
        simp only [List.countP_cons, hp, Option.isSome_some]
        rfl
      rw [hcountP]
      cases hcd : cleanData env.urlFields env.shaperParse data with
      | none =>
        exfalso
        have := hclean line (List.mem_cons_self line rest) data hp
        rw [hcd] at this
        exact Bool.noConfusion this
      | some cleaned =>
        obtain ⟨rate, keep, hds, _, _⟩ := determineSampleRate_spec
          env.getSampleRate (env.draw idx) env.samplingFields cleaned
        simp only [ingestLoop, if_neg hl, hp, hcd, hds]
        cases keep with
        | false =>
          obtain ⟨s', hs1, hs2⟩ := ih (total + 1) success (idx + 1)
            hrlen hrclean
          exact ⟨s', by simp [hs1], by omega⟩
        | true =>
          cases hA : env.addOk cleaned with
          | false =>
            obtain ⟨s', hs1, hs2⟩ := ih (total + 1) success (idx + 1)
              hrlen hrclean
            exact ⟨s', by simp [hA, hs1], by omega⟩
          | true =>
            cases hS : env.sendOk cleaned with
            | false =>
              obtain ⟨s', hs1, hs2⟩ := ih (total + 1) success (idx + 1)
                hrlen hrclean
              exact ⟨s', by simp [hA, hS, hs1], by omega⟩
            | true =>
              obtain ⟨s', hs1, hs2⟩ := ih (total + 1) (success + 1) (idx + 1)
                hrlen hrclean
              exact ⟨s', by simp [hA, hS, hs1], by omega⟩

/-- C4: every scanned line increments `total`; a line failing JSON-object
decoding does not increment `success` and processing continues with the
next line (the `continue` at src/main.go:119), so a batch of n lines with m
malformed ones yields `total = n` and `success` at most the number of
decodable lines (10 lines with 3 malformed: total 10, success at most 7),
and a malformed line never aborts the batch. Side conditions: every line
fits the scanner buffer (otherwise the scan stops, see C1) and no decoded
record triggers the null panic (see C3). -/
theorem malformed_lines_counted_not_fatal (env : Env) (lines : List String)
    (hlen : ∀ l ∈ lines, l.length ≤ MaxLineLength)
    (hclean : ∀ l ∈ lines, ∀ d, env.jsonParse l = some d →
      (cleanData env.urlFields env.shaperParse d).isSome) :
    ∃ s, readNewData env lines = some (lines.length, s, 200)
      ∧ s ≤ lines.countP (fun l => (env.jsonParse l).isSome) := by
  obtain ⟨s', h1, h2⟩ := ingestLoop_counts env lines 0 0 0 hlen hclean
  refine ⟨s', ?_, by simpa using h2⟩
  unfold readNewData
  rw [h1]
  simp

def envC4 : Env :=
  { jsonParse := fun s => if s = "bad" then none
      else some [("a", Value.str s)],
    shaperParse := fun _ => none, getSampleRate := fun _ => 1,
    draw := fun _ => 0, addOk := fun _ => true, sendOk := fun _ => true,
    urlFields := [], samplingFields := ["a"] }

def linesC4 : List String :=
  ["ok", "ok", "bad", "ok", "bad", "ok", "ok", "bad", "ok", "ok"]

theorem malformed_lines_counted_not_fatal_witness :
    ((∀ l ∈ linesC4, l.length ≤ MaxLineLength) ∧
      (∀ l ∈ linesC4, ∀ d, envC4.jsonParse l = some d →
        (cleanData envC4.urlFields envC4.shaperParse d).isSome)) ∧
    ∃ s, readNewData envC4 linesC4 = some (10, s, 200) ∧ s ≤ 7 := by
  have hlen : ∀ l ∈ linesC4, l.length ≤ MaxLineLength := by decide
  have hclean : ∀ l ∈ linesC4, ∀ d, envC4.jsonParse l = some d →
      (cleanData envC4.urlFields envC4.shaperParse d).isSome := by
    intro l _ d hd
    simp only [envC4] at hd
    by_cases hb : l = "bad"
    · rw [if_pos hb] at hd
      exact Option.noConfusion hd
    · rw [if_neg hb] at hd
      injection hd with hdd
      subst hdd
      rfl
  obtain ⟨s, h1, h2⟩ := malformed_lines_counted_not_fatal envC4 linesC4
    hlen hclean
  have hc7 : linesC4.countP (fun l => (envC4.jsonParse l).isSome) = 7 := by
    decide
  exact ⟨⟨hlen, hclean⟩, s, by simpa using h1, by omega⟩

theorem ingestLoop_append_oversized (env : Env) (big : String)
    (post : List String) (hbig : MaxLineLength < big.length)
    (pre : List String) :
    ∀ (total success idx : Nat),
    (∀ l ∈ pre, l.length ≤ MaxLineLength) →
    ingestLoop env (pre ++ big :: post) total success idx
      = ingestLoop env pre total success idx := by
  induction pre with
  | nil =>
    intro total success idx _
    simp only [List.nil_append, ingestLoop, if_pos hbig]
  | cons line rest ih =>
    intro total success idx hlen
    have hrlen : ∀ l ∈ rest, l.length ≤ MaxLineLength :=
      fun l hl => hlen l (List.mem_cons_of_mem _ hl)
    have hl : ¬ MaxLineLength < line.length := by
      have := hlen line (List.mem_cons_self line rest)
      omega
    cases hp : env.jsonParse line with
    | none =>
      simp only [List.cons_append, ingestLoop, if_neg hl, hp]
      exact ih (total + 1) success idx hrlen
    | some data =>
      cases hcd : cleanData env.urlFields env.shaperParse data with
      | none =>
        simp only [List.cons_append, ingestLoop, if_neg hl, hp, hcd]
      | some cleaned =>
        obtain ⟨rate, keep, hds, _, _⟩ := determineSampleRate_spec
          env.getSampleRate (env.draw idx) env.samplingFields cleaned
        simp only [List.cons_append, ingestLoop, if_neg hl, hp, hcd, hds]
        cases keep with
        | false =>
          simp only [Bool.false_eq_true, if_false]
          exact ih (total + 1) success (idx + 1) hrlen
        | true =>
          cases hA : env.addOk cleaned with
          | false =>
            simp only [hA, Bool.false_eq_true, if_false, if_true]
            exact ih (total + 1) success (idx + 1) hrlen
          | true =>
            cases hS : env.sendOk cleaned with
            | false =>
              simp only [hA, hS, Bool.false_eq_true, if_false, if_true]
              exact ih (total + 1) success (idx + 1) hrlen
            | true =>
              simp only [hA, hS, if_true]
              exact ih (total + 1) (success + 1) (idx + 1) hrlen

/-- C1 amended: a line exceeding the maximum line length is not rejected
for that line only — it terminates the scan for the whole request.
`bufio.Scanner` with a fixed maximum buffer (src/main.go:106-107) makes
`Scan` return false on the oversized line (`bufio.ErrTooLong`); the error
is never checked, so the handler behaves exactly as if the body had ended
just before the oversized line: that line is not counted, no later line is
scanned, and the request is still answered with 200. -/
theorem oversized_line_aborts_scan (env : Env) (pre : List String)
    (big : String) (post : List String)
    (hpre : ∀ l ∈ pre, l.length ≤ MaxLineLength)
    (hbig : MaxLineLength < big.length) :
    readNewData env (pre ++ big :: post) = readNewData env pre := by
  unfold readNewData
  rw [ingestLoop_append_oversized env big post hbig pre 0 0 0 hpre]

def bigLine : String := String.mk (List.replicate 65537 'a')

theorem bigLine_length : MaxLineLength < bigLine.length := by
  have h : bigLine.length = 65537 := by
    show (List.replicate 65537 'a').length = 65537
    exact List.length_replicate 65537 'a'
  rw [h]
  decide

def envC1 : Env :=
  { jsonParse := fun s => if s = "bad" then none
      else some [("a", Value.str s)],
    shaperParse := fun _ => none, getSampleRate := fun _ => 1,
    draw := fun _ => 0, addOk := fun _ => true, sendOk := fun _ => true,
    urlFields := [], samplingFields := ["a"] }

/-- C1 counterexample: the claim says an oversized line is rejected for
that line only — counted toward the per-request counts, with every
subsequent line still scanned and processed — so a body consisting of one
oversized line followed by one valid line must report a total of 2.
The code reports `total = 0`: the scanner aborts at the oversized line and
the valid line after it is never seen (second conjunct: the same valid
line alone yields `total = 1, success = 1`). -/
theorem oversized_line_claim_ce :
    readNewData envC1 [bigLine, "ok"] = some (0, 0, 200) ∧
    readNewData envC1 ["ok"] = some (1, 1, 200) := by
  constructor
  · have h0 : ingestLoop envC1 [bigLine, "ok"] 0 0 0 = some (0, 0) := by
      simp only [ingestLoop, if_pos bigLine_length]
    unfold readNewData
    rw [h0]
    rfl
  · rfl

theorem oversized_line_aborts_scan_witness :
    ((∀ l ∈ (["ok"] : List String), l.length ≤ MaxLineLength) ∧
      MaxLineLength < bigLine.length) ∧
    readNewData envC1 (["ok"] ++ bigLine :: ["ok"])
      = readNewData envC1 ["ok"] :=
  ⟨⟨by decide, bigLine_length⟩,
    oversized_line_aborts_scan envC1 ["ok"] bigLine ["ok"]
      (by decide) bigLine_length⟩

end HoneyLog
